import Mathlib

set_option maxRecDepth 100000

/-!
Verification of the CPFR column-discovery and forecast-reconciliation engine of
the analysis-dashboards repository.  The definitions below are a shallow
embedding of `c2-cpfr/lib/sheets.ts` (dynamic column discovery, numeric
coercion, row normalization) and of the discrepancy loop of
`c2-cpfr/app/api/forecast/route.ts` (the `GET` handler, lines 67-91).

Modelling conventions:
* spreadsheet cells are `String`s; a possibly-missing cell is `Option String`
  (JavaScript `undefined` is `none`);
* JavaScript numbers are modelled as exact rationals `ℚ` (the usual
  idealization of IEEE doubles: every concrete value appearing in the claims
  is exactly representable; non-finite values such as the `Infinity` literal
  are outside the model);
* JavaScript objects used as string-keyed dictionaries (`weeks`) are
  association lists `List (String × ℚ)` in insertion order, looked up with
  `List.lookup`;
* a JavaScript `Map` built from an entry list (last write wins) is embedded
  by `skuIndex` below, a left fold that keeps the last matching record.
-/

namespace Cpfr

/-- The character set of the JavaScript regex class `\s` (also the set removed
by `String.prototype.trim`): ASCII whitespace, NBSP, the Unicode space
separators, line/paragraph separators and the BOM. -/
def jsWhitespaceChars : List Char :=
  [' ', '\t', '\n', '\x0b', '\x0c', '\r',
   ' ', ' ', ' ', ' ', ' ', ' ', ' ',
   ' ', ' ', ' ', ' ', ' ', ' ',
   ' ', ' ', ' ', ' ', '　', '﻿']

/-- Membership in the JavaScript `\s` class. -/
def isJsSpace (c : Char) : Bool := jsWhitespaceChars.contains c

/-- `String.prototype.trim`: drop leading and trailing `\s`-class characters. -/
def jsTrim (s : String) : String :=
  (((s.data.dropWhile isJsSpace).reverse.dropWhile isJsSpace).reverse).asString

/-- `String.prototype.toLowerCase`, on the ASCII fragment relevant to the
header aliases of `KNOWN_HEADERS` (`Char.toLower` lowers exactly `'A'..'Z'`). -/
def jsToLower (s : String) : String := (s.data.map Char.toLower).asString

/-- The twelve semantic field keys of `KNOWN_HEADERS` in `lib/sheets.ts`. -/
inductive FieldKey where
  | ANKER_SKU
  | CUSTOMER
  | PRICE
  | PDT
  | SELLOUT_AVG
  | OH
  | WOS
  | TOTAL_OFC
  | Q1
  | Q2
  | Q3
  | Q4
deriving DecidableEq, Repr

/-- The alias lists of `KNOWN_HEADERS` (`lib/sheets.ts`, lines 32-45), in
their source priority order. -/
def KNOWN_HEADERS : FieldKey → List String
  | .ANKER_SKU => ["Anker SKU", "Anker_SKU", "SKU", "Anker Model"]
  | .CUSTOMER => ["Customer", "Cust", "Account"]
  | .PRICE => ["Price", "Unit Price", "Sell Price", "ASP"]
  | .PDT => ["PDT", "Category", "Product Type", "Product Category"]
  | .SELLOUT_AVG => ["Sellout avg", "Sellout Avg", "Sellout Average", "Avg Sellout", "Weekly Sellout"]
  | .OH => ["OH", "On Hand", "On-Hand", "Inventory", "Current OH"]
  | .WOS => ["WOS", "Weeks of Supply", "Weeks Supply", "WoS"]
  | .TOTAL_OFC => ["Total OFC", "Total Forecast", "OFC Total", "Total"]
  | .Q1 => ["Q1", "Q1 Total", "Quarter 1"]
  | .Q2 => ["Q2", "Q2 Total", "Quarter 2"]
  | .Q3 => ["Q3", "Q3 Total", "Quarter 3"]
  | .Q4 => ["Q4", "Q4 Total", "Quarter 4"]

/-- The weekly-column test `WEEK_PATTERN.test h` for the regex
`/^(\d{6})$|^W\+\d+$/` (`lib/sheets.ts`, line 48): either the whole string is
exactly six ASCII digits, or it is a literal `W`, `+` and one or more ASCII
digits. -/
def isWeekHeader (s : String) : Bool :=
  (s.data.length == 6 && s.data.all Char.isDigit) ||
  (match s.data with
   | 'W' :: '+' :: ds => !ds.isEmpty && ds.all Char.isDigit
   | _ => false)

/-- One discovered weekly column (`WeekColumnInfo` in `lib/sheets.ts`):
column index, original (trimmed) header text, and the positional key
`"W+N"` assigned after sorting. -/
structure WeekColumnInfo where
  index : Nat
  label : String
  weekKey : String
deriving DecidableEq, Repr

/-- `Array.prototype.findIndex`: index of the first element satisfying `p`
(`none` embeds the JavaScript result `-1`). -/
def findIndex (p : α → Bool) : List α → Option Nat
  | [] => none
  | x :: xs => if p x then some 0 else (findIndex p xs).map (· + 1)

/-- The named-field loop body of `discoverColumns` (`lib/sheets.ts`, lines
72-87) for one field: try each alias in order and return the leftmost header
index matched by the first alias that matches anything (case-insensitively,
against trimmed header text). -/
def findAlias (rawHeaders : List String) : List String → Option Nat
  | [] => none
  | a :: rest =>
    match findIndex (fun h => jsToLower h == jsToLower a) rawHeaders with
    | some i => some i
    | none => findAlias rawHeaders rest

/-- The `columnMap` produced by `discoverColumns` for a header row, as a map
from field key to discovered column index (a JavaScript number, hence `Int`;
`none` when no alias matched and the key is absent from the map). -/
def columnMapGet (headerRow : List String) (k : FieldKey) : Option Int :=
  (findAlias (headerRow.map jsTrim) (KNOWN_HEADERS k)).map (fun n => (n : Int))

/-- The weekly-column pass of `discoverColumns` (`lib/sheets.ts`, lines
89-107): collect every trimmed header cell matching `WEEK_PATTERN` together
with its column index, sort by index ascending (the JavaScript
`sort((a, b) => a.index - b.index)`, embedded as a stable sort by `index`),
then assign `weekKey = "W+" ++ i` by position. -/
def discoverWeekColumns (headerRow : List String) : List WeekColumnInfo :=
  let rawHeaders := headerRow.map jsTrim
  let cands := (rawHeaders.enum.filter (fun p => isWeekHeader p.2)).map
    (fun p => { index := p.1, label := p.2, weekKey := "" : WeekColumnInfo })
  let sorted := List.insertionSort (fun a b => a.index ≤ b.index) cands
  sorted.enum.map (fun p => { p.2 with weekKey := "W+" ++ toString p.1 })

/-- `safeGet` (`lib/sheets.ts`, lines 123-126): bounds-checked cell access;
returns `none` when the index is `undefined`, negative, or not below the row
length. -/
def safeGet (row : List String) (idx : Option Int) : Option String :=
  match idx with
  | none => none
  | some i => if i < 0 || (row.length : Int) ≤ i then none else row[i.toNat]?

/-- Value of a list of ASCII digits read in base 10. -/
def digitsToNat (ds : List Char) : Nat :=
  ds.foldl (fun n c => n * 10 + (c.toNat - 48)) 0

/-- The exponent part of the JavaScript `parseFloat` grammar, given the
characters following `e`/`E`: an optional sign and digits.  When no digit
follows, the exponent part is not a valid continuation and contributes
exponent `0` (the literal ends before the `e`). -/
def parseExponent (l : List Char) : Int :=
  match l with
  | '-' :: rest =>
    let ds := rest.takeWhile Char.isDigit
    if ds.isEmpty then 0 else -(digitsToNat ds : Int)
  | '+' :: rest =>
    let ds := rest.takeWhile Char.isDigit
    if ds.isEmpty then 0 else (digitsToNat ds : Int)
  | _ =>
    let ds := l.takeWhile Char.isDigit
    if ds.isEmpty then 0 else (digitsToNat ds : Int)

/-- JavaScript `parseFloat` on the finite-decimal grammar: parse the longest
prefix of the form `[+-]? digits [. digits]? ([eE] [+-]? digits)?` (with at
least one digit in the significand) and return its exact rational value;
`none` embeds `NaN` (no valid prefix).  `parseNumber` only applies this to
strings already stripped of `$`, `,` and whitespace. -/
def parseFloatQ (s : String) : Option ℚ :=
  let l := s.data
  let sign : ℚ := match l with
    | '-' :: _ => -1
    | _ => 1
  let l1 := match l with
    | '-' :: rest => rest
    | '+' :: rest => rest
    | _ => l
  let ip := l1.takeWhile Char.isDigit
  let l2 := l1.drop ip.length
  let fp := match l2 with
    | '.' :: rest => rest.takeWhile Char.isDigit
    | _ => []
  let l3 := match l2 with
    | '.' :: rest => rest.drop fp.length
    | _ => l2
  if ip.isEmpty && fp.isEmpty then none
  else
    let mantissa : ℚ := (digitsToNat ip : ℚ) + (digitsToNat fp : ℚ) / (10 : ℚ) ^ fp.length
    let e : Int := match l3 with
      | 'e' :: rest => parseExponent rest
      | 'E' :: rest => parseExponent rest
      | _ => 0
    some (sign * mantissa * (10 : ℚ) ^ e)

/-- The cleaning step of `parseNumber`: `val.replace(/[$,\s]/g, '')` removes
every dollar sign, comma and whitespace character, wherever it occurs. -/
def stripMoneyChars (s : String) : String :=
  (s.data.filter (fun c => !(c == '$' || c == ',' || isJsSpace c))).asString

/-- `parseNumber` (`lib/sheets.ts`, lines 116-121): `0` for a missing or
empty cell, otherwise strip `$`, `,` and whitespace and parse with
`parseFloat`; a failed parse (`NaN`) also yields `0`. -/
def parseNumber (val : Option String) : ℚ :=
  match val with
  | none => 0
  | some v =>
    if v = "" then 0
    else
      match parseFloatQ (stripMoneyChars v) with
      | none => 0
      | some n => n

/-- A normalized forecast record (`SkuForecast` in `lib/types.ts`); `weeks`
is the insertion-ordered weekly-quantities dictionary. -/
structure SkuForecast where
  sku : String
  customer : String
  category : String
  price : ℚ
  selloutAvg : ℚ
  oh : ℚ
  wos : ℚ
  totalOfc : ℚ
  q1 : ℚ
  q2 : ℚ
  q3 : ℚ
  q4 : ℚ
  weeks : List (String × ℚ)
deriving DecidableEq, Repr

/-- `safeGet(row, idx)?.trim() || 'Unknown'`: trim a possibly-missing cell and
fall back to the sentinel `"Unknown"` when missing or blank. -/
def trimOrUnknown (o : Option String) : String :=
  match o with
  | none => "Unknown"
  | some s => if jsTrim s = "" then "Unknown" else jsTrim s

/-- The trimmed SKU cell of a data row (`safeGet(row, columnMap.ANKER_SKU)?.trim()`). -/
def rowSku (cm : FieldKey → Option Int) (row : List String) : Option String :=
  (safeGet row (cm FieldKey.ANKER_SKU)).map jsTrim

/-- The customer of a data row, with the `"Unknown"` fallback. -/
def rowCustomer (cm : FieldKey → Option Int) (row : List String) : String :=
  trimOrUnknown (safeGet row (cm FieldKey.CUSTOMER))

/-- The category of a data row (`PDT` column), with the `"Unknown"` fallback. -/
def rowCategory (cm : FieldKey → Option Int) (row : List String) : String :=
  trimOrUnknown (safeGet row (cm FieldKey.PDT))

/-- Sublist-of-characters test used to embed `String.prototype.includes`. -/
def hasSubList (pat : List Char) : List Char → Bool
  | [] => pat.isEmpty
  | c :: rest => pat.isPrefixOf (c :: rest) || hasSubList pat rest

/-- `s.includes(pat)`. -/
def strIncludes (s pat : String) : Bool := hasSubList pat.data s.data

/-- The customer filter of `readCpfrSheet` (`lib/sheets.ts`, line 203):
`customer.toLowerCase().includes('voicecomm')`. -/
def isExcludedCustomer (customer : String) : Bool :=
  strIncludes (jsToLower customer) "voicecomm"

/-- The record constructed and pushed by `readCpfrSheet` for one data row
(`lib/sheets.ts`, lines 205-227): every numeric field goes through
`parseNumber ∘ safeGet`, and `weeks` stores, for every discovered weekly
column in order, its `weekKey` and the coerced cell at its index. -/
def buildRecord (cm : FieldKey → Option Int) (wcs : List WeekColumnInfo)
    (row : List String) : SkuForecast :=
  { sku := (rowSku cm row).getD ""
    customer := rowCustomer cm row
    category := rowCategory cm row
    price := parseNumber (safeGet row (cm FieldKey.PRICE))
    selloutAvg := parseNumber (safeGet row (cm FieldKey.SELLOUT_AVG))
    oh := parseNumber (safeGet row (cm FieldKey.OH))
    wos := parseNumber (safeGet row (cm FieldKey.WOS))
    totalOfc := parseNumber (safeGet row (cm FieldKey.TOTAL_OFC))
    q1 := parseNumber (safeGet row (cm FieldKey.Q1))
    q2 := parseNumber (safeGet row (cm FieldKey.Q2))
    q3 := parseNumber (safeGet row (cm FieldKey.Q3))
    q4 := parseNumber (safeGet row (cm FieldKey.Q4))
    weeks := wcs.map (fun wc => (wc.weekKey, parseNumber (safeGet row (some (wc.index : Int))))) }

/-- The data-row loop of `readCpfrSheet` (`lib/sheets.ts`, lines 196-228):
skip rows whose SKU cell is missing or blank after trimming, skip rows whose
customer contains `voicecomm` (case-insensitively), and push one record per
remaining row, in row order. -/
def normalizeRows (cm : FieldKey → Option Int) (wcs : List WeekColumnInfo) :
    List (List String) → List SkuForecast
  | [] => []
  | row :: rest =>
    match rowSku cm row with
    | none => normalizeRows cm wcs rest
    | some sku =>
      if sku = "" then normalizeRows cm wcs rest
      else if isExcludedCustomer (rowCustomer cm row) then normalizeRows cm wcs rest
      else buildRecord cm wcs row :: normalizeRows cm wcs rest

/-- A reconciliation discrepancy (`Discrepancy` in `lib/types.ts`). -/
structure Discrepancy where
  sku : String
  customer : String
  week : String
  anker : ℚ
  c2 : ℚ
  diff : ℚ
deriving DecidableEq, Repr

/-- `weeks[weekKey] || 0`: dictionary lookup defaulting to `0`. -/
def weekValOr0 (ws : List (String × ℚ)) (k : String) : ℚ :=
  (ws.lookup k).getD 0

/-- `new Map(data.map(d => [d.sku, d])).get(s)` (`route.ts`, line 68): index a
source by SKU; for duplicate SKUs the last record wins. -/
def skuIndex (bs : List SkuForecast) (s : String) : Option SkuForecast :=
  bs.foldl (fun acc b => if b.sku = s then some b else acc) none

/-- The inner loop of the discrepancy computation (`route.ts`, lines 71-89)
for one source-A record: if its SKU is absent from source B's index nothing is
emitted; otherwise, for each key of its `weeks` dictionary in order, emit a
`Discrepancy` exactly when the two values (B missing keys reading as `0`)
differ, with `diff = c2 - anker`. -/
def recordDiscrepancies (bs : List SkuForecast) (a : SkuForecast) : List Discrepancy :=
  match skuIndex bs a.sku with
  | none => []
  | some b =>
    (a.weeks.map Prod.fst).filterMap (fun w =>
      if weekValOr0 a.weeks w ≠ weekValOr0 b.weeks w then
        some { sku := a.sku, customer := a.customer, week := w,
               anker := weekValOr0 a.weeks w, c2 := weekValOr0 b.weeks w,
               diff := weekValOr0 b.weeks w - weekValOr0 a.weeks w }
      else none)

/-- The full discrepancy loop of the `GET` handler (`route.ts`, lines 67-91):
source-A records processed in order, each contributing its discrepancies. -/
def reconcile (as bs : List SkuForecast) : List Discrepancy :=
  as.flatMap (recordDiscrepancies bs)

/-- The normalized week-key sequence `["W+0", ..., "W+(n-1)"]` that
`readCpfrSheet` gives every record of a source with `n` weekly columns. -/
def stdWeekKeys (n : Nat) : List String :=
  (List.range n).map (fun i => "W+" ++ toString i)

/-- Order on normalized week keys by week offset: `s` precedes `t` when they
read `"W+i"` and `"W+j"` with `i < j`. -/
def keyOffsetLt (s t : String) : Prop :=
  ∃ i j : Nat, s = "W+" ++ toString i ∧ t = "W+" ++ toString j ∧ i < j

/-- Sample normalized record (the spec's end-to-end scenario, source A side). -/
def sampleA : SkuForecast :=
  { sku := "ABC-1", customer := "Acme", category := "Unknown", price := 25/2,
    selloutAvg := 0, oh := 0, wos := 0, totalOfc := 0,
    q1 := 0, q2 := 0, q3 := 0, q4 := 0,
    weeks := [("W+0", 100), ("W+1", 85)] }

/-- Sample normalized record (source B side, differing at `"W+1"`). -/
def sampleB : SkuForecast :=
  { sampleA with customer := "C2", weeks := [("W+0", 100), ("W+1", 90)] }

/-- Source-A record for the week-coverage counterexamples: one weekly key
`"W+0"` carrying `5` units. -/
def cexA : SkuForecast :=
  { sku := "X", customer := "C2", category := "Unknown", price := 0,
    selloutAvg := 0, oh := 0, wos := 0, totalOfc := 0,
    q1 := 0, q2 := 0, q3 := 0, q4 := 0,
    weeks := [("W+0", 5)] }

/-- Source-B record with the same SKU as `cexA` but an empty weekly map. -/
def cexB : SkuForecast :=
  { cexA with weeks := [] }

/-- The discrepancy that reconciling `[cexA]` against `[cexB]` emits. -/
def cexD : Discrepancy :=
  { sku := "X", customer := "C2", week := "W+0", anker := 5, c2 := 0, diff := 0 - 5 }

/-- A small concrete column map for witnesses. -/
def cmW : FieldKey → Option Int := columnMapGet ["SKU", "Customer", "Price"]

/-! ## Helper lemmas -/

/-- One step of `normalizeRows`: a row whose SKU cell is missing is skipped. -/
theorem normalizeRows_cons_skip_missing (cm : FieldKey → Option Int)
    (wcs : List WeekColumnInfo) (row : List String) (rest : List (List String))
    (h : safeGet row (cm FieldKey.ANKER_SKU) = none) :
    normalizeRows cm wcs (row :: rest) = normalizeRows cm wcs rest := by
  have hs : rowSku cm row = none := by simp [rowSku, h]
  simp only [normalizeRows, hs]

/-- One step of `normalizeRows`: a row whose SKU cell is blank after trimming
is skipped. -/
theorem normalizeRows_cons_skip_blank (cm : FieldKey → Option Int)
    (wcs : List WeekColumnInfo) (row : List String) (rest : List (List String))
    (s : String) (h : safeGet row (cm FieldKey.ANKER_SKU) = some s)
    (hb : jsTrim s = "") :
    normalizeRows cm wcs (row :: rest) = normalizeRows cm wcs rest := by
  have hs : rowSku cm row = some "" := by simp [rowSku, h, hb]
  simp [normalizeRows, hs]

/-- One step of `normalizeRows`: a row with an excluded customer is skipped. -/
theorem normalizeRows_cons_skip_excluded (cm : FieldKey → Option Int)
    (wcs : List WeekColumnInfo) (row : List String) (rest : List (List String))
    (s : String) (h : safeGet row (cm FieldKey.ANKER_SKU) = some s)
    (hb : jsTrim s ≠ "") (hex : isExcludedCustomer (rowCustomer cm row) = true) :
    normalizeRows cm wcs (row :: rest) = normalizeRows cm wcs rest := by
  have hs : rowSku cm row = some (jsTrim s) := by simp [rowSku, h]
  simp only [normalizeRows, hs, if_neg hb, hex, if_pos rfl, ite_true]

/-- One step of `normalizeRows`: a kept row contributes exactly its record, in
front of the rest of the output. -/
theorem normalizeRows_cons_keep (cm : FieldKey → Option Int)
    (wcs : List WeekColumnInfo) (row : List String) (rest : List (List String))
    (s : String) (h : safeGet row (cm FieldKey.ANKER_SKU) = some s)
    (hb : jsTrim s ≠ "") (hex : isExcludedCustomer (rowCustomer cm row) = false) :
    normalizeRows cm wcs (row :: rest) =
      buildRecord cm wcs row :: normalizeRows cm wcs rest := by
  have hs : rowSku cm row = some (jsTrim s) := by simp [rowSku, h]
  simp only [normalizeRows, hs, if_neg hb, hex]
  simp

/-- A fold of the `skuIndex` step function over a list with no matching SKU
leaves the accumulator unchanged. -/
theorem skuIndex_foldl_no_match (s : String) :
    ∀ (bs : List SkuForecast) (acc : Option SkuForecast),
      (∀ b ∈ bs, b.sku ≠ s) →
      bs.foldl (fun acc b => if b.sku = s then some b else acc) acc = acc := by
  intro bs
  induction bs with
  | nil => intro acc _; rfl
  | cons x xs ih =>
    intro acc h
    have hx : x.sku ≠ s := h x (by simp)
    simp only [List.foldl_cons, if_neg hx]
    exact ih acc (fun b hb => h b (by simp [hb]))

/-- Once some element of the list matches, the fold's result does not depend
on the accumulator. -/
theorem skuIndex_foldl_acc_irrel (s : String) :
    ∀ (bs : List SkuForecast) (acc acc' : Option SkuForecast),
      (∃ b ∈ bs, b.sku = s) →
      bs.foldl (fun acc b => if b.sku = s then some b else acc) acc =
        bs.foldl (fun acc b => if b.sku = s then some b else acc) acc' := by
  intro bs
  induction bs with
  | nil => intro _ _ h; simp at h
  | cons x xs ih =>
    intro acc acc' h
    by_cases hx : x.sku = s
    · simp only [List.foldl_cons, if_pos hx]
    · simp only [List.foldl_cons, if_neg hx]
      obtain ⟨b, hb, hbs⟩ := h
      rcases List.mem_cons.mp hb with hbx | hbxs
      · subst hbx; exact absurd hbs hx
      · exact ih acc acc' ⟨b, hbxs, hbs⟩

/-- The record returned by `skuIndex` belongs to the indexed source and has
the looked-up SKU. -/
theorem skuIndex_some_mem (s : String) :
    ∀ (bs : List SkuForecast) (acc : Option SkuForecast) (b : SkuForecast),
      bs.foldl (fun acc b => if b.sku = s then some b else acc) acc = some b →
      (b ∈ bs ∧ b.sku = s) ∨ acc = some b := by
  intro bs
  induction bs with
  | nil => intro acc b h; exact Or.inr h
  | cons x xs ih =>
    intro acc b h
    simp only [List.foldl_cons] at h
    rcases ih _ b h with ⟨hmem, hsku⟩ | hacc
    · exact Or.inl ⟨by simp [hmem], hsku⟩
    · by_cases hx : x.sku = s
      · rw [if_pos hx] at hacc
        have hxb : x = b := Option.some.inj hacc
        subst hxb
        exact Or.inl ⟨by simp, hx⟩
      · rw [if_neg hx] at hacc
        exact Or.inr hacc

/-- `skuIndex` membership, packaged: a successful lookup returns a record of
the source carrying the looked-up SKU. -/
theorem skuIndex_mem {bs : List SkuForecast} {s : String} {b : SkuForecast}
    (h : skuIndex bs s = some b) : b ∈ bs ∧ b.sku = s := by
  rcases skuIndex_some_mem s bs none b h with h' | h'
  · exact h'
  · cases h'

/-- In a source whose SKUs are pairwise distinct, `skuIndex` finds exactly
the unique record with the looked-up SKU. -/
theorem skuIndex_eq_some_of_nodup (s : String) :
    ∀ (bs : List SkuForecast), (bs.map SkuForecast.sku).Nodup →
      ∀ b ∈ bs, b.sku = s → skuIndex bs s = some b := by
  intro bs
  induction bs with
  | nil => intro _ b hb; simp at hb
  | cons x xs ih =>
    intro hnd b hb hbs
    simp only [List.map_cons, List.nodup_cons] at hnd
    unfold skuIndex
    rw [List.foldl_cons]
    rcases List.mem_cons.mp hb with hbx | hbxs
    · subst hbx
      rw [if_pos hbs]
      apply skuIndex_foldl_no_match
      intro y hy hys
      exact hnd.1 (by rw [hbs, ← hys]; exact List.mem_map_of_mem _ hy)
    · rw [skuIndex_foldl_acc_irrel s xs _ none ⟨b, hbxs, hbs⟩]
      exact ih hnd.2 b hbxs hbs

/-- Membership characterization of the per-record discrepancy list: `d` is
emitted for `a` exactly when `a`'s SKU resolves to some `b` in source B's
index and some week key `w` of `a` separates the two values, `d` being the
record the loop pushes there. -/
theorem mem_recordDiscrepancies {bs : List SkuForecast} {a : SkuForecast}
    {d : Discrepancy} :
    d ∈ recordDiscrepancies bs a ↔
      ∃ b, skuIndex bs a.sku = some b ∧
        ∃ w ∈ a.weeks.map Prod.fst,
          weekValOr0 a.weeks w ≠ weekValOr0 b.weeks w ∧
          d = { sku := a.sku, customer := a.customer, week := w,
                anker := weekValOr0 a.weeks w, c2 := weekValOr0 b.weeks w,
                diff := weekValOr0 b.weeks w - weekValOr0 a.weeks w } := by
  unfold recordDiscrepancies
  cases hidx : skuIndex bs a.sku with
  | none => simp
  | some b =>
    simp only [List.mem_filterMap, Option.some.injEq]
    constructor
    · rintro ⟨w, hw, hf⟩
      by_cases hne : weekValOr0 a.weeks w ≠ weekValOr0 b.weeks w
      · rw [if_pos hne] at hf
        exact ⟨b, rfl, w, hw, hne, (Option.some.inj hf).symm⟩
      · rw [if_neg hne] at hf
        cases hf
    · rintro ⟨b', hb', w, hw, hne, hd⟩
      cases hb'
      exact ⟨w, hw, by rw [if_pos hne, hd]⟩

/-- Membership in the reconciliation output comes record by record from
source A. -/
theorem mem_reconcile {as bs : List SkuForecast} {d : Discrepancy} :
    d ∈ reconcile as bs ↔ ∃ a ∈ as, d ∈ recordDiscrepancies bs a := by
  simp [reconcile, List.mem_flatMap]

/-- The weeks of the per-record discrepancy list form a sublist of the
record's week-key list: emitted weeks appear in key-list order. -/
theorem filterMap_week_sublist (a b : SkuForecast) :
    ∀ keys : List String,
      ((keys.filterMap (fun w =>
        if weekValOr0 a.weeks w ≠ weekValOr0 b.weeks w then
          some { sku := a.sku, customer := a.customer, week := w,
                 anker := weekValOr0 a.weeks w, c2 := weekValOr0 b.weeks w,
                 diff := weekValOr0 b.weeks w - weekValOr0 a.weeks w }
        else none)).map Discrepancy.week).Sublist keys := by
  intro keys
  induction keys with
  | nil => simp
  | cons w ws ih =>
    rw [List.filterMap_cons]
    by_cases h : weekValOr0 a.weeks w ≠ weekValOr0 b.weeks w
    · rw [if_pos h]
      simpa using List.Sublist.cons₂ w ih
    · rw [if_neg h]
      exact ih.cons w

/-- The weeks of the per-record discrepancy list form a sublist of the
record's week-key list: emitted weeks appear in key-list order. -/
theorem map_week_recordDiscrepancies {bs : List SkuForecast} {a b : SkuForecast}
    (hidx : skuIndex bs a.sku = some b) :
    ((recordDiscrepancies bs a).map Discrepancy.week).Sublist
      (a.weeks.map Prod.fst) := by
  unfold recordDiscrepancies
  rw [hidx]
  exact filterMap_week_sublist a b (a.weeks.map Prod.fst)

/-- `findIndex` returns `none` exactly when no element satisfies the
predicate. -/
theorem findIndex_eq_none_iff {α : Type} (p : α → Bool) :
    ∀ l : List α, findIndex p l = none ↔ ∀ x ∈ l, p x = false := by
  intro l
  induction l with
  | nil => simp [findIndex]
  | cons x xs ih =>
    by_cases h : p x
    · simp [findIndex, h]
    · have hfx : p x = false := by simpa using h
      rw [show findIndex p (x :: xs) = (findIndex p xs).map (· + 1) from by
        simp [findIndex, hfx]]
      rw [Option.map_eq_none', ih]
      constructor
      · intro hall y hy
        rcases List.mem_cons.mp hy with hy | hy
        · subst hy; exact hfx
        · exact hall y hy
      · intro hall y hy
        exact hall y (List.mem_cons.mpr (Or.inr hy))

/-- `findIndex` returns `some n` exactly when position `n` holds the first
element satisfying the predicate. -/
theorem findIndex_eq_some_iff {α : Type} (p : α → Bool) :
    ∀ (l : List α) (n : Nat),
      findIndex p l = some n ↔
        (∃ x, l[n]? = some x ∧ p x = true) ∧
        (∀ m, m < n → ∀ y, l[m]? = some y → p y = false) := by
  intro l
  induction l with
  | nil => intro n; simp [findIndex]
  | cons x xs ih =>
    intro n
    by_cases h : p x = true
    · simp only [findIndex, if_pos h]
      constructor
      · intro h0
        cases Option.some.inj h0
        exact ⟨⟨x, by simp, h⟩, by intro m hm; omega⟩
      · rintro ⟨⟨y, hy, hpy⟩, hbefore⟩
        cases n with
        | zero => rfl
        | succ n' =>
          exfalso
          have hfalse := hbefore 0 (Nat.succ_pos n') x (by simp)
          rw [h] at hfalse
          cases hfalse
    · have hfx : p x = false := by simpa using h
      simp only [findIndex, if_neg h]
      constructor
      · intro hmap
        obtain ⟨n', hn', rfl⟩ := Option.map_eq_some'.mp hmap
        obtain ⟨⟨y, hy, hpy⟩, hbefore⟩ := (ih n').mp hn'
        refine ⟨⟨y, by simpa using hy, hpy⟩, ?_⟩
        intro m hm z hz
        cases m with
        | zero =>
          have hz' : x = z := by simpa using hz
          subst hz'
          exact hfx
        | succ m' =>
          exact hbefore m' (by omega) z (by simpa using hz)
      · rintro ⟨⟨y, hy, hpy⟩, hbefore⟩
        cases n with
        | zero =>
          exfalso
          have hy' : x = y := by simpa using hy
          subst hy'
          rw [hpy] at hfx
          cases hfx
        | succ n' =>
          have hxs : findIndex p xs = some n' := (ih n').mpr
            ⟨⟨y, by simpa using hy, hpy⟩,
             fun m hm z hz => hbefore (m + 1) (by omega) z (by simpa using hz)⟩
          rw [hxs]
          rfl

/-- `findAlias` characterization: it answers `some n` exactly when some
alias at position `j` matches a header at `n`, no earlier alias matches any
header, and `n` is the leftmost match of that alias. -/
theorem findAlias_eq_some_iff (rh : List String) :
    ∀ (as : List String) (n : Nat),
      findAlias rh as = some n ↔
        ∃ (j : Nat) (a : String), as[j]? = some a ∧
          (∀ (j' : Nat) (a' : String), j' < j → as[j']? = some a' →
            findIndex (fun h => jsToLower h == jsToLower a') rh = none) ∧
          findIndex (fun h => jsToLower h == jsToLower a) rh = some n := by
  intro as
  induction as with
  | nil => intro n; simp [findAlias]
  | cons a0 rest ih =>
    intro n
    cases hf : findIndex (fun h => jsToLower h == jsToLower a0) rh with
    | some i =>
      simp only [findAlias, hf]
      constructor
      · intro h0
        cases Option.some.inj h0
        refine ⟨0, a0, by simp, ?_, hf⟩
        intro j' a' hj'
        omega
      · rintro ⟨j, a, hja, hbefore, hfind⟩
        cases j with
        | zero =>
          have ha : a0 = a := by simpa using hja
          subst ha
          rw [hf] at hfind
          exact hfind
        | succ j' =>
          exfalso
          have hnone := hbefore 0 a0 (Nat.succ_pos j') (by simp)
          rw [hf] at hnone
          cases hnone
    | none =>
      simp only [findAlias, hf]
      constructor
      · intro h0
        obtain ⟨j, a, hja, hbefore, hfind⟩ := (ih n).mp h0
        refine ⟨j + 1, a, by simpa using hja, ?_, hfind⟩
        intro j' a' hj' hja'
        cases j' with
        | zero =>
          have ha : a0 = a' := by simpa using hja'
          subst ha
          exact hf
        | succ j'' =>
          exact hbefore j'' a' (by omega) (by simpa using hja')
      · rintro ⟨j, a, hja, hbefore, hfind⟩
        cases j with
        | zero =>
          have ha : a0 = a := by simpa using hja
          subst ha
          rw [hf] at hfind
          cases hfind
        | succ j' =>
          exact (ih n).mpr ⟨j', a, by simpa using hja,
            fun j'' a'' hj'' hja'' => hbefore (j'' + 1) a'' (by omega) (by simpa using hja''),
            hfind⟩

/-- Enumerated lists carry strictly increasing indices. -/
theorem pairwise_fst_lt_enumFrom {α : Type} (l : List α) :
    ∀ n : Nat, List.Pairwise (fun p q => p.1 < q.1) (List.enumFrom n l) := by
  induction l with
  | nil => intro n; exact List.Pairwise.nil
  | cons x xs ih =>
    intro n
    rw [List.enumFrom_cons]
    refine List.Pairwise.cons ?_ (ih (n + 1))
    rintro ⟨i, y⟩ hmem
    exact Nat.lt_of_succ_le (List.mem_enumFrom hmem).1

/-- Reassigning `weekKey` by position leaves each entry's index and label
unchanged. -/
theorem assignKeys_pairs (l : List WeekColumnInfo) :
    ∀ n : Nat,
      ((List.enumFrom n l).map
        (fun p => { p.2 with weekKey := "W+" ++ toString p.1 })).map
          (fun wc => (wc.index, wc.label))
      = l.map (fun wc => (wc.index, wc.label)) := by
  induction l with
  | nil => intro n; rfl
  | cons x xs ih =>
    intro n
    simp only [List.enumFrom_cons, List.map_cons, ih]

/-- Reassigning `weekKey` by position yields the keys `"W+n"`, `"W+(n+1)"`,
and so on, one per entry. -/
theorem assignKeys_keys (l : List WeekColumnInfo) :
    ∀ n : Nat,
      ((List.enumFrom n l).map
        (fun p => { p.2 with weekKey := "W+" ++ toString p.1 })).map
          WeekColumnInfo.weekKey
      = (List.range' n l.length).map (fun i => "W+" ++ toString i) := by
  induction l with
  | nil => intro n; rfl
  | cons x xs ih =>
    intro n
    simp only [List.enumFrom_cons, List.map_cons, List.length_cons,
      List.range'_succ, ih]

/-- The sort inside `discoverWeekColumns` is the identity: the candidates
are collected by a single left-to-right scan, so their indices already
ascend.  The function therefore equals the filter-then-assign composite. -/
theorem discoverWeekColumns_eq (headerRow : List String) :
    discoverWeekColumns headerRow =
      ((((headerRow.map jsTrim).enum.filter (fun p => isWeekHeader p.2)).map
        (fun p => ({ index := p.1, label := p.2, weekKey := "" } : WeekColumnInfo))).enum).map
        (fun p => { p.2 with weekKey := "W+" ++ toString p.1 }) := by
  unfold discoverWeekColumns
  have hpw : List.Pairwise (fun a b : WeekColumnInfo => a.index ≤ b.index)
      (((headerRow.map jsTrim).enum.filter (fun p => isWeekHeader p.2)).map
        (fun p => ({ index := p.1, label := p.2, weekKey := "" } : WeekColumnInfo))) := by
    rw [List.pairwise_map]
    have henum : List.Pairwise (fun p q : Nat × String => p.1 < q.1)
        ((headerRow.map jsTrim).enum) := pairwise_fst_lt_enumFrom _ 0
    exact ((henum.sublist (List.filter_sublist _)).imp (fun h => Nat.le_of_lt h))
  show (List.insertionSort _ _).enum.map _ = _
  rw [List.Sorted.insertionSort_eq hpw]

/-- The week keys produced by `discoverWeekColumns` are always
`"W+0", "W+1", …` in positional order, whatever the labels. -/
theorem discoverWeekColumns_weekKeys (headerRow : List String) :
    (discoverWeekColumns headerRow).map WeekColumnInfo.weekKey =
      stdWeekKeys (discoverWeekColumns headerRow).length := by
  have he : ∀ (l : List WeekColumnInfo), l.enum = List.enumFrom 0 l := fun l => rfl
  rw [discoverWeekColumns_eq, he, assignKeys_keys]
  unfold stdWeekKeys
  rw [List.range_eq_range']
  simp [List.enum_length]

/-- Swapping the two sources of `reconcile` (one direction of the
antisymmetry law): under unique SKUs on both sides and agreeing weekly key
lists for matched SKUs, a flagged `(sku, week)` pair with difference `v`
yields the same flagged pair with difference `-v` in the swapped run. -/
theorem reconcile_swap_aux (as bs : List SkuForecast)
    (hA : (as.map SkuForecast.sku).Nodup)
    (hkeys : ∀ a ∈ as, ∀ b ∈ bs, a.sku = b.sku →
      a.weeks.map Prod.fst = b.weeks.map Prod.fst)
    (s w : String) (v : ℚ)
    (h : ∃ d ∈ reconcile as bs, d.sku = s ∧ d.week = w ∧ d.diff = v) :
    ∃ d ∈ reconcile bs as, d.sku = s ∧ d.week = w ∧ d.diff = -v := by
  obtain ⟨d, hd, hs, hw, hv⟩ := h
  obtain ⟨a, ha, hda⟩ := mem_reconcile.mp hd
  obtain ⟨b, hidx, w', hw', hne, hdeq⟩ := mem_recordDiscrepancies.mp hda
  obtain ⟨hbmem, hbsku⟩ := skuIndex_mem hidx
  have hs' : a.sku = s := by rw [hdeq] at hs; exact hs
  have hw2 : w' = w := by rw [hdeq] at hw; exact hw
  have hv' : weekValOr0 b.weeks w' - weekValOr0 a.weeks w' = v := by
    rw [hdeq] at hv; exact hv
  have hkw : a.weeks.map Prod.fst = b.weeks.map Prod.fst :=
    hkeys a ha b hbmem hbsku.symm
  have hidx' : skuIndex as b.sku = some a :=
    skuIndex_eq_some_of_nodup b.sku as hA a ha hbsku.symm
  refine ⟨{ sku := b.sku, customer := b.customer, week := w',
            anker := weekValOr0 b.weeks w', c2 := weekValOr0 a.weeks w',
            diff := weekValOr0 a.weeks w' - weekValOr0 b.weeks w' },
    mem_reconcile.mpr ⟨b, hbmem, mem_recordDiscrepancies.mpr
      ⟨a, hidx', w', by rw [← hkw]; exact hw', hne.symm, rfl⟩⟩, ?_, hw2, ?_⟩
  · rw [hbsku]; exact hs'
  · rw [← hv']; ring

/-! ## Claim theorems -/

/-- Claim C1: the discovered week columns are exactly the trimmed header
cells matching the weekly pattern, in ascending column-index order (the
filtered enumeration), their `weekKey`s are `"W+0", "W+1", …` assigned
positionally, and any two header rows with the same number of week cells get
identical key sequences regardless of the labels. -/
theorem c1_week_columns (headerRow : List String) :
    ((discoverWeekColumns headerRow).map (fun wc => (wc.index, wc.label)) =
      (headerRow.map jsTrim).enum.filter (fun p => isWeekHeader p.2))
    ∧ ((discoverWeekColumns headerRow).map WeekColumnInfo.weekKey =
      stdWeekKeys (discoverWeekColumns headerRow).length)
    ∧ (∀ headerRow' : List String,
        (discoverWeekColumns headerRow').length = (discoverWeekColumns headerRow).length →
        (discoverWeekColumns headerRow').map WeekColumnInfo.weekKey =
          (discoverWeekColumns headerRow).map WeekColumnInfo.weekKey) := by
  refine ⟨?_, discoverWeekColumns_weekKeys headerRow, ?_⟩
  · have he : ∀ (l : List WeekColumnInfo), l.enum = List.enumFrom 0 l := fun l => rfl
    rw [discoverWeekColumns_eq, he, assignKeys_pairs]
    rw [List.map_map]
    have : ((fun wc : WeekColumnInfo => (wc.index, wc.label)) ∘
        (fun p : Nat × String => ({ index := p.1, label := p.2, weekKey := "" } : WeekColumnInfo)))
        = fun p : Nat × String => p := by
      funext p
      simp
    rw [this]
    exact List.map_id _
  · intro headerRow' hlen
    rw [discoverWeekColumns_weekKeys headerRow', discoverWeekColumns_weekKeys headerRow, hlen]

/-- Witness for C1: a concrete header row's week columns, and two header rows
with different labels but equally many week cells getting equal key
sequences. -/
theorem c1_week_columns_witness :
    (discoverWeekColumns ["abc", " 202606 ", "W+7"]).map (fun wc => (wc.index, wc.label))
      = [(1, "202606"), (2, "W+7")]
    ∧ (discoverWeekColumns ["210001", "210002"]).map WeekColumnInfo.weekKey =
        (discoverWeekColumns ["W+5", "123456"]).map WeekColumnInfo.weekKey := by
  constructor
  · rw [(c1_week_columns ["abc", " 202606 ", "W+7"]).1]
    decide
  · exact (c1_week_columns ["W+5", "123456"]).2.2 ["210001", "210002"] (by decide)

/-- Claim C2: for a source-A record whose SKU resolves in source B's index,
and for each week key of the A record, a discrepancy is emitted exactly when
the two values differ under strict equality — a key missing on the B side
being compared as `0` — and the emitted difference is B's value minus A's
value; the full output concatenates these per-record lists in source-A
order. -/
theorem c2_discrepancy_condition :
    (∀ as bs : List SkuForecast,
      reconcile as bs = (as.map (recordDiscrepancies bs)).flatten)
    ∧ (∀ (bs : List SkuForecast) (a b : SkuForecast),
        skuIndex bs a.sku = some b →
        (∀ w ∈ a.weeks.map Prod.fst,
          ((∃ d ∈ recordDiscrepancies bs a, d.week = w) ↔
            (a.weeks.lookup w).getD 0 ≠ (b.weeks.lookup w).getD 0))
        ∧ (∀ d ∈ recordDiscrepancies bs a,
            d.week ∈ a.weeks.map Prod.fst
            ∧ d.sku = a.sku ∧ d.customer = a.customer
            ∧ d.anker = (a.weeks.lookup d.week).getD 0
            ∧ d.c2 = (b.weeks.lookup d.week).getD 0
            ∧ d.diff = (b.weeks.lookup d.week).getD 0 - (a.weeks.lookup d.week).getD 0))
    ∧ (∀ (as bs : List SkuForecast) (a : SkuForecast), a ∈ as →
        ∀ d ∈ recordDiscrepancies bs a, d ∈ reconcile as bs) := by
  refine ⟨fun as bs => List.flatMap_def as _, ?_, ?_⟩
  · intro bs a b hidx
    constructor
    · intro w hw
      constructor
      · rintro ⟨d, hd, hdw⟩
        obtain ⟨b', hb', w', hw', hne, hdeq⟩ := mem_recordDiscrepancies.mp hd
        rw [hidx] at hb'
        cases Option.some.inj hb'
        have hww : w' = w := by rw [hdeq] at hdw; exact hdw
        rw [← hww]
        exact hne
      · intro hne
        exact ⟨_, mem_recordDiscrepancies.mpr ⟨b, hidx, w, hw, hne, rfl⟩, rfl⟩
    · intro d hd
      obtain ⟨b', hb', w', hw', hne, hdeq⟩ := mem_recordDiscrepancies.mp hd
      rw [hidx] at hb'
      cases Option.some.inj hb'
      subst hdeq
      exact ⟨hw', rfl, rfl, rfl, rfl, rfl⟩
  · intro as bs a ha d hd
    exact mem_reconcile.mpr ⟨a, ha, hd⟩

/-- Witness for C2: in the spec's end-to-end scenario the week `"W+1"`
values 85 and 90 differ, so a discrepancy is emitted for it. -/
theorem c2_discrepancy_condition_witness :
    ∃ d ∈ recordDiscrepancies [sampleB] sampleA, d.week = "W+1" :=
  ((c2_discrepancy_condition.2.1 [sampleB] sampleA sampleB
      (by with_unfolding_all decide)).1 "W+1" (by decide)).mpr
    (by with_unfolding_all decide)

/-- Counterexample for C3: reconciling `[cexA]` against `[cexB]` emits a
discrepancy for week `"W+0"` although the matched source-B record does not
contain that week key at all — the claim's "present in both sources'
weekly-quantities maps" fails on the code. -/
theorem c3_counterexample :
    skuIndex [cexB] cexA.sku = some cexB
    ∧ (∃ d ∈ reconcile [cexA] [cexB], d.week = "W+0")
    ∧ cexB.weeks.lookup "W+0" = none
    ∧ ¬ "W+0" ∈ cexB.weeks.map Prod.fst := by
  with_unfolding_all decide

/-- Claim C3 (amended): every emitted discrepancy is for a SKU present in
both sources and for a week key present in the source-A record's
weekly-quantities map; a week key absent from the matched source-B record is
compared as 0 and can still be flagged, and week keys present only on the B
side are never flagged. -/
theorem c3_week_presence :
    ∀ (as bs : List SkuForecast) (d : Discrepancy), d ∈ reconcile as bs →
      ∃ a ∈ as, a.sku = d.sku ∧ d.week ∈ a.weeks.map Prod.fst ∧
        ∃ b ∈ bs, b.sku = a.sku := by
  intro as bs d hd
  obtain ⟨a, ha, hda⟩ := mem_reconcile.mp hd
  obtain ⟨b, hidx, w', hw', hne, hdeq⟩ := mem_recordDiscrepancies.mp hda
  obtain ⟨hbmem, hbsku⟩ := skuIndex_mem hidx
  subst hdeq
  exact ⟨a, ha, rfl, hw', b, hbmem, hbsku⟩

/-- Witness for C3 (amended): applied to the counterexample data. -/
theorem c3_week_presence_witness :
    ∃ a ∈ [cexA], a.sku = cexD.sku ∧ cexD.week ∈ a.weeks.map Prod.fst ∧
      ∃ b ∈ [cexB], b.sku = a.sku :=
  c3_week_presence [cexA] [cexB] cexD (by with_unfolding_all decide)

/-- Counterexample for C4: with `cexA` carrying week `"W+0"` and `cexB`
carrying no weeks, `reconcile [cexA] [cexB]` flags `("X", "W+0")` while
`reconcile [cexB] [cexA]` flags nothing, so the two directions do not flag
the same set of pairs. -/
theorem c4_counterexample :
    (∃ d ∈ reconcile [cexA] [cexB], d.sku = "X" ∧ d.week = "W+0")
    ∧ reconcile [cexB] [cexA] = [] := by
  with_unfolding_all decide

/-- Claim C4 (amended): when each source's SKUs are unique and matched
records carry identical weekly key lists, reconciling `(A, B)` and
reconciling `(B, A)` flag the same `(sku, weekKey)` pairs, with exactly
negated differences. -/
theorem c4_reconcile_antisymmetry :
    ∀ (as bs : List SkuForecast),
      (as.map SkuForecast.sku).Nodup → (bs.map SkuForecast.sku).Nodup →
      (∀ a ∈ as, ∀ b ∈ bs, a.sku = b.sku →
        a.weeks.map Prod.fst = b.weeks.map Prod.fst) →
      ∀ (s w : String) (v : ℚ),
        ((∃ d ∈ reconcile as bs, d.sku = s ∧ d.week = w ∧ d.diff = v) ↔
          (∃ d ∈ reconcile bs as, d.sku = s ∧ d.week = w ∧ d.diff = -v)) := by
  intro as bs hA hB hkeys s w v
  constructor
  · exact reconcile_swap_aux as bs hA hkeys s w v
  · intro h
    have hkeys' : ∀ b ∈ bs, ∀ a ∈ as, b.sku = a.sku →
        b.weeks.map Prod.fst = a.weeks.map Prod.fst :=
      fun b hb a ha hsk => (hkeys a ha b hb hsk.symm).symm
    have h' := reconcile_swap_aux bs as hB hkeys' s w (-v) h
    simpa [neg_neg] using h'

/-- Witness for C4 (amended): in the end-to-end scenario, the `(ABC-1, W+1)`
discrepancy of difference `5` flips to difference `-5` when the sources are
swapped. -/
theorem c4_reconcile_antisymmetry_witness :
    ∃ d ∈ reconcile [sampleB] [sampleA],
      d.sku = "ABC-1" ∧ d.week = "W+1" ∧ d.diff = -(5 : ℚ) :=
  (c4_reconcile_antisymmetry [sampleA] [sampleB] (by decide) (by decide)
      (by with_unfolding_all decide) "ABC-1" "W+1" 5).mp
    (by with_unfolding_all decide)

/-- Claim C5: a field's mapped column index is determined by trying its
aliases in listed priority order under case-insensitive comparison against
trimmed header text; the first alias matching any cell wins, at its leftmost
occurrence; in particular a header row with both `"SKU"` and `"Anker SKU"`
maps `ANKER_SKU` to the `"Anker SKU"` column, that alias being listed
first. -/
theorem c5_alias_priority :
    (∀ (headerRow : List String) (k : FieldKey) (i : Int),
      columnMapGet headerRow k = some i ↔
        ∃ (j : Nat) (a : String), (KNOWN_HEADERS k)[j]? = some a ∧
          (∀ (j' : Nat) (a' : String), j' < j → (KNOWN_HEADERS k)[j']? = some a' →
            ∀ h ∈ headerRow.map jsTrim, jsToLower h ≠ jsToLower a') ∧
          ∃ n : Nat, i = (n : Int) ∧
            (∃ h, (headerRow.map jsTrim)[n]? = some h ∧ jsToLower h = jsToLower a) ∧
            (∀ (m : Nat) (h' : String), m < n → (headerRow.map jsTrim)[m]? = some h' →
              jsToLower h' ≠ jsToLower a))
    ∧ columnMapGet ["ID", "SKU", "Customer", "Anker SKU"] FieldKey.ANKER_SKU = some 3 := by
  constructor
  · intro hr k i
    unfold columnMapGet
    constructor
    · intro h
      cases hfa : findAlias (hr.map jsTrim) (KNOWN_HEADERS k) with
      | none => rw [hfa] at h; cases h
      | some n =>
      rw [hfa] at h
      have hcast : (n : Int) = i := Option.some.inj h
      obtain ⟨j, a, hja, hbefore, hfind⟩ := (findAlias_eq_some_iff _ _ n).mp hfa
      obtain ⟨⟨y, hy, hpy⟩, hbef2⟩ := (findIndex_eq_some_iff _ _ n).mp hfind
      refine ⟨j, a, hja, ?_, n, hcast.symm, ⟨y, hy, by simpa using hpy⟩, ?_⟩
      · intro j' a' hj' hja' h hmem hle
        have hnone := hbefore j' a' hj' hja'
        have hfalse := (findIndex_eq_none_iff _ _).mp hnone h hmem
        rw [hle] at hfalse
        simp at hfalse
      · intro m h' hm hmh' heq
        have hfalse := hbef2 m hm h' hmh'
        rw [heq] at hfalse
        simp at hfalse
    · rintro ⟨j, a, hja, hbefore, n, hi, ⟨y, hy, hpy⟩, hbef2⟩
      subst hi
      have hfind : findIndex (fun h => jsToLower h == jsToLower a)
          (hr.map jsTrim) = some n := by
        apply (findIndex_eq_some_iff _ _ n).mpr
        refine ⟨⟨y, hy, by simpa using hpy⟩, ?_⟩
        intro m hm z hz
        have hne := hbef2 m z hm hz
        simpa using hne
      have hbefore' : ∀ (j' : Nat) (a' : String), j' < j →
          (KNOWN_HEADERS k)[j']? = some a' →
          findIndex (fun h => jsToLower h == jsToLower a') (hr.map jsTrim) = none := by
        intro j' a' hj' hja'
        apply (findIndex_eq_none_iff _ _).mpr
        intro x hx
        have hne := hbefore j' a' hj' hja' x hx
        simpa using hne
      rw [(findAlias_eq_some_iff _ _ n).mpr ⟨j, a, hja, hbefore', hfind⟩]
      rfl
  · decide

/-- Witness for C5: the concrete alias-priority scenario of the claim — a
header row containing both `"SKU"` and `"Anker SKU"` maps the SKU field to
the `"Anker SKU"` column. -/
theorem c5_alias_priority_witness :
    columnMapGet ["ID", "SKU", "Customer", "Anker SKU"] FieldKey.ANKER_SKU = some 3 :=
  c5_alias_priority.2

/-- Claim C6: a data row whose SKU cell is absent, or blank after trimming,
produces no record; any other row whose customer is not excluded produces
exactly one record, and the output preserves the input rows' order (each kept
row's record is consed in place, excluded and blank rows are dropped in
place, with no re-sorting). -/
theorem c6_row_skipping (cm : FieldKey → Option Int) (wcs : List WeekColumnInfo)
    (row : List String) (rest : List (List String)) :
    (safeGet row (cm FieldKey.ANKER_SKU) = none →
      normalizeRows cm wcs (row :: rest) = normalizeRows cm wcs rest)
    ∧ (∀ s, safeGet row (cm FieldKey.ANKER_SKU) = some s → jsTrim s = "" →
      normalizeRows cm wcs (row :: rest) = normalizeRows cm wcs rest)
    ∧ (∀ s, safeGet row (cm FieldKey.ANKER_SKU) = some s → jsTrim s ≠ "" →
      isExcludedCustomer (rowCustomer cm row) = true →
      normalizeRows cm wcs (row :: rest) = normalizeRows cm wcs rest)
    ∧ (∀ s, safeGet row (cm FieldKey.ANKER_SKU) = some s → jsTrim s ≠ "" →
      isExcludedCustomer (rowCustomer cm row) = false →
      normalizeRows cm wcs (row :: rest) =
        buildRecord cm wcs row :: normalizeRows cm wcs rest) := by
  exact ⟨normalizeRows_cons_skip_missing cm wcs row rest,
    fun s h hb => normalizeRows_cons_skip_blank cm wcs row rest s h hb,
    fun s h hb hex => normalizeRows_cons_skip_excluded cm wcs row rest s h hb hex,
    fun s h hb hex => normalizeRows_cons_keep cm wcs row rest s h hb hex⟩

/-- Witness for C6: a row with a blank SKU cell yields no record, and a kept
row yields exactly its record in front. -/
theorem c6_row_skipping_witness :
    normalizeRows cmW [] [["", "Acme", "5"]] = normalizeRows cmW [] []
    ∧ normalizeRows cmW [] [["A1", "Acme", "5"]] =
        buildRecord cmW [] ["A1", "Acme", "5"] :: normalizeRows cmW [] [] := by
  constructor
  · exact (c6_row_skipping cmW [] ["", "Acme", "5"] []).2.1 "" (by decide) (by decide)
  · exact (c6_row_skipping cmW [] ["A1", "Acme", "5"] []).2.2.2 "A1" (by decide)
      (by decide) (by decide)

/-- Claim C7: numeric coercion returns `0` for a missing cell, an empty cell,
and any cell whose cleaned text fails to parse (such as `"n/a"`); it never
fails, and a row with such a cell is still normalized (with `price = 0`) as
long as its SKU is present and its customer not excluded. -/
theorem c7_coercion_fallback :
    parseNumber none = 0
    ∧ parseNumber (some "") = 0
    ∧ (∀ s, parseFloatQ (stripMoneyChars s) = none → parseNumber (some s) = 0)
    ∧ parseNumber (some "n/a") = 0
    ∧ (∀ (cm : FieldKey → Option Int) (wcs : List WeekColumnInfo)
        (row : List String) (rest : List (List String)) (s : String),
        safeGet row (cm FieldKey.ANKER_SKU) = some s → jsTrim s ≠ "" →
        isExcludedCustomer (rowCustomer cm row) = false →
        safeGet row (cm FieldKey.PRICE) = some "n/a" →
        normalizeRows cm wcs (row :: rest) =
          buildRecord cm wcs row :: normalizeRows cm wcs rest
        ∧ (buildRecord cm wcs row).price = 0) := by
  refine ⟨rfl, rfl, ?_, by decide, ?_⟩
  · intro s h
    by_cases hs : s = ""
    · subst hs; rfl
    · simp only [parseNumber, if_neg hs, h]
  · intro cm wcs row rest s h hb hex hprice
    refine ⟨normalizeRows_cons_keep cm wcs row rest s h hb hex, ?_⟩
    simp only [buildRecord, hprice]
    decide

/-- Witness for C7: a concrete row whose price cell reads `"n/a"` is still
normalized, with price `0`. -/
theorem c7_coercion_fallback_witness :
    normalizeRows cmW [] [["A1", "Acme", "n/a"]] =
      buildRecord cmW [] ["A1", "Acme", "n/a"] :: normalizeRows cmW [] []
    ∧ (buildRecord cmW [] ["A1", "Acme", "n/a"]).price = 0 :=
  c7_coercion_fallback.2.2.2.2 cmW [] ["A1", "Acme", "n/a"] [] "A1"
    (by decide) (by decide) (by decide) (by decide)

/-- Claim C9: `safeGet` is bounds-safe — it returns `none` whenever the index
is undefined, negative, or at least the row length — and consequently a row
too short to reach a mapped column degrades that field to `0` (numeric
fields) or `"Unknown"` (customer and category) instead of failing. -/
theorem c9_safe_get_bounds :
    (∀ row : List String, safeGet row none = none)
    ∧ (∀ (row : List String) (i : Int), i < 0 → safeGet row (some i) = none)
    ∧ (∀ (row : List String) (i : Int), (row.length : Int) ≤ i →
        safeGet row (some i) = none)
    ∧ (∀ (cm : FieldKey → Option Int) (wcs : List WeekColumnInfo)
        (row : List String), safeGet row (cm FieldKey.PRICE) = none →
        (buildRecord cm wcs row).price = 0)
    ∧ (∀ (cm : FieldKey → Option Int) (wcs : List WeekColumnInfo)
        (row : List String), safeGet row (cm FieldKey.CUSTOMER) = none →
        (buildRecord cm wcs row).customer = "Unknown")
    ∧ (∀ (cm : FieldKey → Option Int) (wcs : List WeekColumnInfo)
        (row : List String), safeGet row (cm FieldKey.PDT) = none →
        (buildRecord cm wcs row).category = "Unknown") := by
  refine ⟨fun row => rfl, ?_, ?_, ?_, ?_, ?_⟩
  · intro row i h
    simp [safeGet, h]
  · intro row i h
    simp [safeGet, h]
  · intro cm wcs row h
    simp [buildRecord, h, parseNumber]
  · intro cm wcs row h
    simp [buildRecord, rowCustomer, h, trimOrUnknown]
  · intro cm wcs row h
    simp [buildRecord, rowCategory, h, trimOrUnknown]

/-- Witness for C9: out-of-range and negative indices on a concrete row, and
the degradation of `price` and `customer` on a row shorter than its mapped
columns. -/
theorem c9_safe_get_bounds_witness :
    safeGet ["a", "b"] (some 7) = none
    ∧ safeGet ["a", "b"] (some (-1)) = none
    ∧ (buildRecord cmW [] ["A1"]).price = 0
    ∧ (buildRecord cmW [] ["A1"]).customer = "Unknown" :=
  ⟨c9_safe_get_bounds.2.2.1 ["a", "b"] 7 (by decide),
   c9_safe_get_bounds.2.1 ["a", "b"] (-1) (by decide),
   c9_safe_get_bounds.2.2.2.1 cmW [] ["A1"] (by decide),
   c9_safe_get_bounds.2.2.2.2.1 cmW [] ["A1"] (by decide)⟩

/-- Claim C8: the discrepancy list concatenates per-record lists in
source-A order; within one record of a normalized source (whose weekly keys
are `"W+0", "W+1", …` in order) the emitted weeks strictly ascend by week
offset; and reconciliation of the same inputs always yields the same list. -/
theorem c8_output_ordering :
    ∀ (as bs : List SkuForecast),
      (∀ a ∈ as, ∃ n, a.weeks.map Prod.fst = stdWeekKeys n) →
      (reconcile as bs = (as.map (recordDiscrepancies bs)).flatten
       ∧ (∀ a ∈ as,
          ((recordDiscrepancies bs a).map Discrepancy.week).Pairwise keyOffsetLt)
       ∧ (∀ as' bs', as' = as → bs' = bs → reconcile as' bs' = reconcile as bs)) := by
  intro as bs hstd
  refine ⟨List.flatMap_def as _, ?_, fun as' bs' h1 h2 => by rw [h1, h2]⟩
  intro a ha
  obtain ⟨n, hkeys⟩ := hstd a ha
  cases hidx : skuIndex bs a.sku with
  | none =>
    unfold recordDiscrepancies
    rw [hidx]
    exact List.Pairwise.nil
  | some b =>
    apply List.Pairwise.sublist (map_week_recordDiscrepancies hidx)
    rw [hkeys]
    unfold stdWeekKeys
    rw [List.pairwise_map]
    exact (List.pairwise_lt_range n).imp (fun hij => ⟨_, _, rfl, rfl, hij⟩)

/-- Witness for C8: the per-record discrepancy weeks of the end-to-end
scenario ascend by week offset. -/
theorem c8_output_ordering_witness :
    ((recordDiscrepancies [sampleB] sampleA).map Discrepancy.week).Pairwise keyOffsetLt :=
  ((c8_output_ordering [sampleA] [sampleB]
      (fun a ha => by rw [List.mem_singleton.mp ha]; exact ⟨2, by decide⟩)).2.1)
    sampleA (by simp)

/-- Claim C10: the cleaning step removes every dollar sign, comma and
whitespace character anywhere in the cell text (the result contains none of
them and is a subsequence of the input), and parsing then takes the longest
numeric prefix of what remains: `"12.5abc"` coerces to `12.5` and `"1,2 3"`
to `123`, not `0`. -/
theorem c10_strip_then_parse :
    (∀ s : String,
      (stripMoneyChars s).data.all (fun c => !(c == '$' || c == ',' || isJsSpace c)) = true
      ∧ (stripMoneyChars s).data.Sublist s.data)
    ∧ parseNumber (some "12.5abc") = 25/2
    ∧ parseNumber (some "1,2 3") = 123 := by
  refine ⟨?_, ?_, ?_⟩
  · intro s
    constructor
    · rw [List.all_eq_true]
      intro c hc
      exact (List.mem_filter.mp hc).2
    · exact List.filter_sublist s.data
  · with_unfolding_all decide
  · with_unfolding_all decide

end Cpfr
